import Mathlib

/-!
Shallow embedding of `moex_client.py` (class `MoexClient`).

Modelling conventions:
* JSON scalar cells are `Value`: `null` (JSON null / pandas NaN / NaT),
  `num q` (a JSON number, exact rational), and `time q` (a calendar
  date/datetime).  The upstream API transports dates as strings; parsing a
  well-formed date string with `pd.to_datetime` is an order-isomorphism onto
  timestamps, so the embedding carries dates already in parsed form
  (`Value.time`) and `pd.to_datetime` acts as the identity on them, maps JSON
  null to NaT (`null`), and maps numbers to the corresponding epoch instant.
* A response envelope (`"history"`, `"candles"`, `"marketdata"`,
  `"securities"`) is a `"data"` row list plus a `"columns"` name list; an
  absent key and a falsy (empty-dict) value both embed as `none`.
* A pandas DataFrame is a column-name list plus rectangular rows
  (`pd.DataFrame(data, columns=cols)` enforces rectangularity); cell access
  goes through the positional index of the column label.
* The HTTP transport is an injected capability: the page loop only varies the
  `start` offset between requests, so `get : Nat -> Response` maps the
  requested offset to the decoded JSON body.  Transport failures
  (`requests` exceptions, empty body) abort the whole call in `_get` and are
  outside every claim considered here, so `get` is total.
* The `while True` page loop is embedded with explicit fuel; `Err.fuelOut`
  marks fuel exhaustion (a model artefact, not a code path).
-/

deriving instance DecidableEq for Except

namespace Moex

/-- A JSON/pandas scalar cell: null (also NaN/NaT), a number, or a
parsed date/datetime. -/
inductive Value where
  | null
  | num (q : ℚ)
  | time (q : ℚ)
deriving DecidableEq

abbrev Row := List Value

/-- One data envelope of a MOEX ISS response: `{"data": ..., "columns": ...}`. -/
structure Envelope where
  data : List Row
  columns : List String
deriving DecidableEq

/-- A decoded JSON response body, restricted to the keys the client reads. -/
structure Response where
  history : Option Envelope := none
  candles : Option Envelope := none
  marketdata : Option Envelope := none
  securities : Option Envelope := none
deriving DecidableEq

/-- A pandas DataFrame: ordered column labels plus rectangular rows. -/
structure DF where
  cols : List String
  rows : List Row
deriving DecidableEq

/-- Positional index of a column label. -/
def colIdx (cols : List String) (c : String) : Option ℕ :=
  cols.findIdx? (fun x => x == c)

/-- Cell of row `r` in column `c` (columns `cols`); absent labels and short
rows read as null (the claims only exercise rectangular, in-bounds data). -/
def cellAt (cols : List String) (r : Row) (c : String) : Value :=
  match colIdx cols c with
  | some i => r.getD i .null
  | none => .null

/-- `pd.to_datetime` on a cell: identity on already-parsed dates, NaT on
null, epoch instant on numbers (order-preserving). -/
def toDatetime : Value → Value
  | .null => .null
  | .num q => .time q
  | .time q => .time q

/-- `df[c] = <per-row value>`: overwrite column `c` in place if present,
else append it on the right (pandas column assignment). -/
def setColF (df : DF) (c : String) (f : Row → Value) : DF :=
  match colIdx df.cols c with
  | some i => ⟨df.cols, df.rows.map (fun r => r.set i (f r))⟩
  | none => ⟨df.cols ++ [c], df.rows.map (fun r => r ++ [f r])⟩

/-- `df.rename(columns={a: b})`: relabel every column named `a` as `b`. -/
def renameCol (df : DF) (a b : String) : DF :=
  ⟨df.cols.map (fun c => if c = a then b else c), df.rows⟩

/-- `df[[c1, ..., cn]]`: project onto the named columns, in that order. -/
def selectCols (df : DF) (cs : List String) : DF :=
  ⟨cs, df.rows.map (fun r => cs.map (cellAt df.cols r))⟩

/-- `j.get("history") or j.get("candles")`: the first truthy envelope. -/
def envelopeOf (j : Response) : Option Envelope :=
  match j.history with
  | some e => some e
  | none => j.candles

/-- Lines 61-66 of the source: build the page DataFrame and resolve its
timestamp column.  Candle-shaped pages (an `"end"` column) get `TRADEDATE`
assigned from the parsed `"end"` column and `"close"` renamed to `CLOSE`;
otherwise `TRADEDATE` is re-assigned to its parsed self, which raises
`KeyError` (here `none`) when no `TRADEDATE` column exists either. -/
def buildDF (e : Envelope) : Option DF :=
  let df0 : DF := ⟨e.columns, e.data⟩
  if "end" ∈ df0.cols then
    let df1 := setColF df0 "TRADEDATE" (fun r => toDatetime (cellAt df0.cols r "end"))
    some (renameCol df1 "close" "CLOSE")
  else if "TRADEDATE" ∈ df0.cols then
    some (setColF df0 "TRADEDATE" (fun r => toDatetime (cellAt df0.cols r "TRADEDATE")))
  else
    none

/-- Lines 71-75: keep timestamp, price and (when present) volume. -/
def projectDF (df : DF) : DF :=
  if "VOLUME" ∈ df.cols then selectCols df ["TRADEDATE", "CLOSE", "VOLUME"]
  else selectCols df ["TRADEDATE", "CLOSE"]

/-- Result of the page loop: the list of `start` offsets actually sent, and
on `done` the accumulated projected pages. -/
inductive LoopRes where
  | done (calls : List ℕ) (dfs : List DF)
  | keyErr (calls : List ℕ)
  | fuelOut (calls : List ℕ)
deriving DecidableEq

/-- The `while True` pagination loop of `get_history` (lines 50-79), with
`limit = 100`, driven by the injected transport `get` (offset ↦ response). -/
def fetchPages (get : ℕ → Response) : ℕ → ℕ → LoopRes
  | 0, _ => .fuelOut []
  | fuel + 1, s =>
    match envelopeOf (get s) with
    | none => .done [s] []
    | some block =>
      if block.data = [] then .done [s] []
      else
        match buildDF block with
        | none => .keyErr [s]
        | some df =>
          if "CLOSE" ∈ df.cols then
            if df.rows.length < 100 then .done [s] [projectDF df]
            else
              match fetchPages get fuel (s + 100) with
              | .done cs dfs => .done (s :: cs) (projectDF df :: dfs)
              | .keyErr cs => .keyErr (s :: cs)
              | .fuelOut cs => .fuelOut (s :: cs)
          else .done [s] []

/-- Row count of a response's page envelope (0 when absent). -/
def pageRowCount (r : Response) : ℕ :=
  match envelopeOf r with
  | none => 0
  | some e => e.data.length

/-- The response yields a page the loop will actually append: a present
envelope whose DataFrame builds and carries a `CLOSE` column. -/
def pageUsable (r : Response) : Prop :=
  ∃ e df, envelopeOf r = some e ∧ buildDF e = some df ∧ "CLOSE" ∈ df.cols

/-- The response does not make the loop raise: either no envelope, no rows,
or a DataFrame that builds (timestamp column resolvable). -/
def pageOk (r : Response) : Bool :=
  match envelopeOf r with
  | none => true
  | some e => e.data.isEmpty || (buildDF e).isSome

/-- The projected rows one response contributes to the accumulator
(empty when the loop would break on it without appending). -/
def pagePreview (r : Response) : List Row :=
  match envelopeOf r with
  | none => []
  | some e =>
    if e.data = [] then []
    else
      match buildDF e with
      | none => []
      | some df => if "CLOSE" ∈ df.cols then (projectDF df).rows else []

/-! ### Float semantics for the derived return columns

`np.log`, `pct_change` and `cumprod` run on IEEE doubles.  `EFloat` embeds a
double as NaN, ±infinity, or an exact rational (rounding is immaterial to the
claims, which are stated up to `≈`); the arithmetic below follows the IEEE
special-value rules numpy/pandas apply (division by zero gives a signed
infinity, `0/0` and `inf/inf` give NaN, NaN propagates). -/

inductive EFloat where
  | nan
  | inf
  | neginf
  | fin (q : ℚ)
deriving DecidableEq

/-- Reading a DataFrame cell as a float: JSON null becomes NaN. -/
def toF : Value → EFloat
  | .null => .nan
  | .num q => .fin q
  | .time q => .fin q

def efNeg : EFloat → EFloat
  | .nan => .nan
  | .inf => .neginf
  | .neginf => .inf
  | .fin q => .fin (-q)

def efAdd : EFloat → EFloat → EFloat
  | .nan, _ => .nan
  | _, .nan => .nan
  | .inf, .neginf => .nan
  | .neginf, .inf => .nan
  | .inf, _ => .inf
  | _, .inf => .inf
  | .neginf, _ => .neginf
  | _, .neginf => .neginf
  | .fin a, .fin b => .fin (a + b)

def efSub (x y : EFloat) : EFloat := efAdd x (efNeg y)

def efMul : EFloat → EFloat → EFloat
  | .nan, _ => .nan
  | _, .nan => .nan
  | .inf, .inf => .inf
  | .inf, .neginf => .neginf
  | .neginf, .inf => .neginf
  | .neginf, .neginf => .inf
  | .inf, .fin b => if 0 < b then .inf else if b < 0 then .neginf else .nan
  | .fin a, .inf => if 0 < a then .inf else if a < 0 then .neginf else .nan
  | .neginf, .fin b => if 0 < b then .neginf else if b < 0 then .inf else .nan
  | .fin a, .neginf => if 0 < a then .neginf else if a < 0 then .inf else .nan
  | .fin a, .fin b => .fin (a * b)

def efDiv : EFloat → EFloat → EFloat
  | .nan, _ => .nan
  | _, .nan => .nan
  | .inf, .inf => .nan
  | .inf, .neginf => .nan
  | .neginf, .inf => .nan
  | .neginf, .neginf => .nan
  | .inf, .fin b => if 0 ≤ b then .inf else .neginf
  | .neginf, .fin b => if 0 ≤ b then .neginf else .inf
  | .fin _, .inf => .fin 0
  | .fin _, .neginf => .fin 0
  | .fin a, .fin b =>
    if b = 0 then (if 0 < a then .inf else if a < 0 then .neginf else .nan)
    else .fin (a / b)

/-- Value of `np.log` on a double, kept symbolic: `logOf q` stands for the
real number `ln q` (with `q > 0`); `np.log` of a negative number or NaN is
NaN (`undefined`), of `0` is `-inf`, of `+inf` is `+inf`. -/
inductive LogVal where
  | undefined
  | nInf
  | pInf
  | logOf (q : ℚ)
deriving DecidableEq

def efLog : EFloat → LogVal
  | .nan => .undefined
  | .neginf => .undefined
  | .inf => .pInf
  | .fin q => if 0 < q then .logOf q else if q = 0 then .nInf else .undefined

/-- `df["PRICE"].pct_change()` (line 91): `price[i] / price[i-1] - 1`, the
shifted series starting with NaN. -/
def computeRet (ps : List EFloat) : List EFloat :=
  List.zipWith (fun a b => efSub (efDiv a b) (.fin 1)) ps (.nan :: ps)

/-- `np.log(df["PRICE"] / df["PRICE"].shift(1))` (line 90). -/
def computeLogret (ps : List EFloat) : List LogVal :=
  List.zipWith (fun a b => efLog (efDiv a b)) ps (.nan :: ps)

/-- `Series.cumprod()` with its default `skipna=True`: NaN positions stay NaN
and the running product continues past them. -/
def cumprodSkipNa (acc : EFloat) : List EFloat → List EFloat
  | [] => []
  | .nan :: xs => .nan :: cumprodSkipNa acc xs
  | x :: xs => efMul acc x :: cumprodSkipNa (efMul acc x) xs

/-- `(1 + df["RET"]).cumprod()` (line 92). -/
def computeCumret (ps : List EFloat) : List EFloat :=
  cumprodSkipNa (.fin 1) ((computeRet ps).map (fun r => efAdd (.fin 1) r))

/-! ### The normalizer (lines 84-92) -/

/-- Numeric sort key of a cell (only used between non-null cells). -/
def valQ : Value → ℚ
  | .null => 0
  | .num q => q
  | .time q => q

/-- Is the cell a parsed timestamp (as opposed to NaT or a stray number)? -/
def isTime : Value → Bool
  | .time _ => true
  | _ => false

/-- `sort_values` key comparison: nulls (NaT) sort last
(`na_position="last"`), otherwise compare the underlying instants. -/
def vleB : Value → Value → Bool
  | _, .null => true
  | .null, _ => false
  | a, b => valQ a ≤ valQ b

/-- Pandas `<` on timestamps: any comparison involving NaT is false. -/
def vltB : Value → Value → Bool
  | .time a, .time b => a < b
  | _, _ => false

/-- `df.drop_duplicates(subset="TRADEDATE")`: keep each key's first
occurrence (pandas treats NaN/NaT keys as duplicates of each other). -/
def dedupRows (key : Row → Value) : List Row → List Value → List Row
  | [], _ => []
  | r :: rs, seen =>
    if key r ∈ seen then dedupRows key rs seen
    else r :: dedupRows key rs (key r :: seen)

def ordInsert (le : Row → Row → Bool) (a : Row) : List Row → List Row
  | [] => [a]
  | b :: l => if le a b then a :: b :: l else b :: ordInsert le a l

/-- `df.sort_values("TRADEDATE")`: after the dedup the sort keys are pairwise
distinct, so any comparison sort computes the same list; insertion sort is
used as the model. -/
def sortRows (le : Row → Row → Bool) : List Row → List Row
  | [] => []
  | a :: l => ordInsert le a (sortRows le l)

/-- The timestamp key of a row, as `drop_duplicates`/`sort_values` read it. -/
def tsKeyOf (cols : List String) : Row → Value :=
  fun r => cellAt cols r "TRADEDATE"

/-- Dedup (keep first) then sort ascending by the timestamp key. -/
def normRows (key : Row → Value) (rows : List Row) : List Row :=
  sortRows (fun a b => vleB (key a) (key b)) (dedupRows key rows [])

/-- `pd.concat(all_dfs, ignore_index=True)`: column union in order of first
appearance, absent cells filled with NaN (null). -/
def concatCols (dfs : List DF) : List String :=
  dfs.foldl (fun acc d => acc ++ d.cols.filter (fun c => c ∉ acc)) []

def concatDFs (dfs : List DF) : DF :=
  let cols := concatCols dfs
  ⟨cols, dfs.flatMap (fun d => d.rows.map (fun r => cols.map (cellAt d.cols r)))⟩

/-- The normalized series `get_history` returns: the tabular part
(`TIMESTAMP`, `PRICE`, optionally `VOLUME`) plus the three derived columns
(kept as parallel lists). -/
structure HistResult where
  df : DF
  logret : List LogVal
  ret : List EFloat
  cumret : List EFloat
deriving DecidableEq

/-- Lines 84-92: concat, drop duplicate timestamps (first kept), sort by
timestamp, re-index, rename to `TIMESTAMP`/`PRICE`/`VOLUME`, and compute
`LOGRET`, `RET`, `CUMRET` from the price column. -/
def normalize (dfs : List DF) : HistResult :=
  let c := concatDFs dfs
  let rows2 := normRows (tsKeyOf c.cols) c.rows
  let df3 :=
    renameCol (renameCol (renameCol ⟨c.cols, rows2⟩ "TRADEDATE" "TIMESTAMP") "CLOSE" "PRICE")
      "volume" "VOLUME"
  let prices := df3.rows.map (fun r => toF (cellAt df3.cols r "PRICE"))
  ⟨df3, computeLogret prices, computeRet prices, computeCumret prices⟩

/-- The `TIMESTAMP` column of the normalized series. -/
def timestampsOf (h : HistResult) : List Value :=
  h.df.rows.map (fun r => cellAt h.df.cols r "TIMESTAMP")

/-- `timestamp[i] < timestamp[i+1]` for every adjacent pair, under the pandas
`<` (false on NaT). -/
def strictIncrB : List Value → Bool
  | [] => true
  | [_] => true
  | a :: b :: t => vltB a b && strictIncrB (b :: t)

/-! ### Endpoint resolution and the full history operation -/

inductive ParamVal where
  | str (s : String)
  | nat (n : ℕ)
deriving DecidableEq

/-- The `intervals` dict of line 35. -/
def intervalsAssoc : List (String × ℕ) :=
  [("1m", 1), ("10m", 10), ("1h", 60), ("1d", 1440)]

/-- Lines 39-44: endpoint path and base query parameters per granularity
(`stop` is the Python `end` argument). -/
def resolveEndpoint (engine market board ticker start stop interval : String) :
    String × List (String × ParamVal) :=
  if interval = "1d" then
    (s!"history/engines/{engine}/markets/{market}/boards/{board}/securities/{ticker}.json",
      [("from", .str start), ("till", .str stop)])
  else
    (s!"engines/{engine}/markets/{market}/securities/{ticker}/candles.json",
      [("from", .str start), ("till", .str stop),
        ("interval", .nat ((intervalsAssoc.lookup interval).getD 0))])

inductive Err where
  | invalidInterval
  | noData
  | keyError
  | fuelOut
  | noMarketdata
  | invalidPrice
  | invalidVolume
deriving DecidableEq

/-- `get_history` (lines 34-94): validate the interval, run the page loop,
raise when no page was accumulated, else normalize.  The second component is
the list of `start` offsets the loop sent to the transport. -/
def getHistory (get : ℕ → Response) (fuel : ℕ) (interval : String) :
    Except Err HistResult × List ℕ :=
  if (intervalsAssoc.lookup interval).isNone then (.error .invalidInterval, [])
  else
    match fetchPages get fuel 0 with
    | .done calls dfs =>
      if dfs = [] then (.error .noData, calls) else (.ok (normalize dfs), calls)
    | .keyErr calls => (.error .keyError, calls)
    | .fuelOut calls => (.error .fuelOut, calls)

/-! ### Snapshot (`get_data`, lines 97-132) and listing (lines 134-139) -/

structure Snapshot where
  price : ℚ
  volume : ℚ
  time : Value
deriving DecidableEq

def mdData (j : Response) : List Row :=
  (j.marketdata.map Envelope.data).getD []

def mdCols (j : Response) : List String :=
  (j.marketdata.map Envelope.columns).getD []

/-- Candidate price fields, in documented priority order (line 110). -/
def snapFields : List String :=
  ["LCURRENTPRICE", "LAST", "MARKETPRICE", "LASTPRICE", "CLOSEPRICE"]

/-- Extract a numeric cell (`float(...)`; only applied to non-null cells). -/
def asNum : Value → ℚ
  | .num q => q
  | .time q => q
  | .null => 0

/-- Lines 109-113: the first candidate field that is present with a non-null
first-row value. -/
def pickPrice (cols : List String) (r : Row) : Option ℚ :=
  snapFields.findSome? fun f =>
    if f ∈ cols ∧ cellAt cols r f ≠ .null then some (asNum (cellAt cols r f)) else none

/-- `get_data`: single marketdata lookup.  JSON numbers are finite, so the
`np.isfinite` part of line 115 is identically true in the model; `now` is the
injected wall clock for the `pd.Timestamp.now()` fallback (line 126). -/
def getData (j : Response) (now : ℚ) : Except Err Snapshot :=
  if mdData j = [] then .error .noMarketdata
  else
    let r0 := (mdData j).headD []
    match pickPrice (mdCols j) r0 with
    | none => .error .invalidPrice
    | some p =>
      if p ≤ 0 then .error .invalidPrice
      else if "VOLUME" ∈ mdCols j ∧ cellAt (mdCols j) r0 "VOLUME" ≠ .null ∧
          0 < asNum (cellAt (mdCols j) r0 "VOLUME") then
        let ts :=
          if "SYSTIME" ∈ mdCols j ∧ cellAt (mdCols j) r0 "SYSTIME" ≠ .null then
            toDatetime (cellAt (mdCols j) r0 "SYSTIME")
          else .time now
        .ok ⟨p, asNum (cellAt (mdCols j) r0 "VOLUME"), ts⟩
      else .error .invalidVolume

def secData (j : Response) : List Row :=
  (j.securities.map Envelope.data).getD []

def secCols (j : Response) : List String :=
  (j.securities.map Envelope.columns).getD []

/-- `get_securities_list`: build the table from whatever the envelope holds;
an absent or empty envelope yields an empty table, never an error. -/
def getSecuritiesList (j : Response) : Except Err DF :=
  .ok ⟨secCols j, secData j⟩

/-- The empty JSON body (no envelopes at all). -/
def emptyResp : Response := {}

/-- The timestamps of a history result, `[]` on failure. -/
def histTimestamps (x : Except Err HistResult) : List Value :=
  match x with
  | .ok h => timestampsOf h
  | .error _ => []

/-- The first present, non-null candidate price is missing or not positive
(`price is None or not np.isfinite(price) or price <= 0`, line 115; JSON
numbers are finite). -/
@[reducible] def badPickedPrice (j : Response) : Prop :=
  match pickPrice (mdCols j) ((mdData j).headD []) with
  | none => True
  | some p => p ≤ 0

/-- The volume check of line 118 fails: `VOLUME` absent, null, or not
positive. -/
@[reducible] def badVolume (j : Response) : Prop :=
  ¬("VOLUME" ∈ mdCols j ∧ cellAt (mdCols j) ((mdData j).headD []) "VOLUME" ≠ .null ∧
    0 < asNum (cellAt (mdCols j) ((mdData j).headD []) "VOLUME"))

/-- C1 witness data: one short, usable daily page. -/
def c1Resp : Response :=
  { history := some ⟨[[.time 1, .num 10], [.time 2, .num 11]], ["TRADEDATE", "CLOSE"]⟩ }

/-- C2 counterexample data: a fetched page whose second row has a null
(NaT) trade date. -/
def nullTsResp : Response :=
  { history := some ⟨[[.time 5, .num 10], [.null, .num 20]], ["TRADEDATE", "CLOSE"]⟩ }

/-- C2 witness data: one page with an internal duplicate timestamp. -/
def dupPage : DF :=
  ⟨["TRADEDATE", "CLOSE"], [[.time 2, .num 10], [.time 1, .num 11], [.time 2, .num 12]]⟩

/-- C6 counterexample data: a zero price followed by a positive price. -/
def zeroPricePage : DF :=
  ⟨["TRADEDATE", "CLOSE"], [[.time 1, .num 0], [.time 2, .num 50]]⟩

/-- C7 data: the spec's three-price example 100, 110, 99. -/
def threePricePage : DF :=
  ⟨["TRADEDATE", "CLOSE"], [[.time 1, .num 100], [.time 2, .num 110], [.time 3, .num 99]]⟩

/-- C8 counterexample data: `LCURRENTPRICE`, `LAST` and `CLOSEPRICE` all
present and non-null. -/
def c8BadResp : Response :=
  { marketdata := some ⟨[[.num 5, .num 6, .num 7, .num 10]],
      ["LCURRENTPRICE", "LAST", "CLOSEPRICE", "VOLUME"]⟩ }

/-- C8 witness data: no `LCURRENTPRICE`; `LAST` and `CLOSEPRICE` non-null. -/
def c8GoodResp : Response :=
  { marketdata := some ⟨[[.num 6, .num 3, .num 7, .num 10]],
      ["LAST", "MARKETPRICE", "CLOSEPRICE", "VOLUME"]⟩ }

/-- C9 counterexample data: first candidate negative, `LAST` positive,
volume present and positive. -/
def c9BadResp : Response :=
  { marketdata := some ⟨[[.num (-5), .num 6, .num 10]],
      ["LCURRENTPRICE", "LAST", "VOLUME"]⟩ }

/-- C9 witness data: a good price but no volume column. -/
def c9NoVolResp : Response :=
  { marketdata := some ⟨[[.num 5]], ["LAST"]⟩ }

/-! ## Helper lemmas -/

theorem efDiv_nan_right (x : EFloat) : efDiv x .nan = .nan := by
  cases x <;> rfl

theorem efSub_nan_left (y : EFloat) : efSub .nan y = .nan := by
  cases y <;> rfl

theorem efLog_nan : efLog .nan = .undefined := rfl

/-- Position `i+1` of `pct_change`: current over previous price, minus one. -/
theorem computeRet_succ (ps : List EFloat) (i : ℕ) (a b : EFloat)
    (ha : ps[i + 1]? = some a) (hb : ps[i]? = some b) :
    (computeRet ps)[i + 1]? = some (efSub (efDiv a b) (.fin 1)) := by
  unfold computeRet
  rw [List.getElem?_zipWith, ha, List.getElem?_cons_succ, hb]

/-- Position `i+1` of the log-return column. -/
theorem computeLogret_succ (ps : List EFloat) (i : ℕ) (a b : EFloat)
    (ha : ps[i + 1]? = some a) (hb : ps[i]? = some b) :
    (computeLogret ps)[i + 1]? = some (efLog (efDiv a b)) := by
  unfold computeLogret
  rw [List.getElem?_zipWith, ha, List.getElem?_cons_succ, hb]

theorem ordInsert_length (le : Row → Row → Bool) (a : Row) :
    ∀ l, (ordInsert le a l).length = l.length + 1 := by
  intro l
  induction l with
  | nil => rfl
  | cons b t ih =>
    unfold ordInsert
    split
    · rfl
    · simp [ih]

theorem sortRows_length (le : Row → Row → Bool) :
    ∀ l, (sortRows le l).length = l.length := by
  intro l
  induction l with
  | nil => rfl
  | cons a t ih => simp [sortRows, ordInsert_length, ih]

theorem ordInsert_perm (le : Row → Row → Bool) (a : Row) :
    ∀ l, (ordInsert le a l).Perm (a :: l) := by
  intro l
  induction l with
  | nil => exact List.Perm.refl _
  | cons b t ih =>
    unfold ordInsert
    split
    · exact List.Perm.refl _
    · exact (ih.cons b).trans (List.Perm.swap a b t)

theorem sortRows_perm (le : Row → Row → Bool) :
    ∀ l, (sortRows le l).Perm l := by
  intro l
  induction l with
  | nil => exact List.Perm.refl _
  | cons a t ih => exact (ordInsert_perm le a _).trans (ih.cons a)

theorem ordInsert_chain (le : Row → Row → Bool)
    (htot : ∀ a b, le a b = true ∨ le b a = true) (a : Row) :
    ∀ l, List.Chain' (fun x y => le x y = true) l →
      List.Chain' (fun x y => le x y = true) (ordInsert le a l) := by
  intro l
  induction l with
  | nil => intro _; exact List.chain'_singleton a
  | cons b t ih =>
    intro h
    unfold ordInsert
    split
    · rename_i hab
      exact List.chain'_cons.2 ⟨hab, h⟩
    · rename_i hab
      have hba : le b a = true := (htot a b).resolve_left hab
      cases t with
      | nil => exact List.chain'_cons.2 ⟨hba, List.chain'_singleton a⟩
      | cons c t2 =>
        have hbc : le b c = true := (List.chain'_cons.1 h).1
        have htail := ih h.tail
        unfold ordInsert at htail ⊢
        by_cases hac : le a c = true
        · rw [if_pos hac] at htail ⊢
          exact List.chain'_cons.2 ⟨hba, htail⟩
        · rw [if_neg hac] at htail ⊢
          exact List.chain'_cons.2 ⟨hbc, htail⟩

theorem sortRows_chain (le : Row → Row → Bool)
    (htot : ∀ a b, le a b = true ∨ le b a = true) :
    ∀ l, List.Chain' (fun x y => le x y = true) (sortRows le l) := by
  intro l
  induction l with
  | nil => exact List.chain'_nil
  | cons a t ih => exact ordInsert_chain le htot a _ ih

theorem vleB_total (a b : Value) : vleB a b = true ∨ vleB b a = true := by
  cases a <;> cases b <;> simp [vleB] <;> exact le_total _ _

theorem dedupRows_subset (key : Row → Value) :
    ∀ (L : List Row) (seen : List Value) (r : Row),
      r ∈ dedupRows key L seen → r ∈ L := by
  intro L
  induction L with
  | nil => intro seen r h; exact absurd h (List.not_mem_nil r)
  | cons a t ih =>
    intro seen r h
    unfold dedupRows at h
    split at h
    · exact List.mem_cons_of_mem a (ih _ r h)
    · rcases List.mem_cons.1 h with h | h
      · exact h ▸ List.mem_cons_self a t
      · exact List.mem_cons_of_mem a (ih _ r h)

theorem dedupRows_key_notin (key : Row → Value) :
    ∀ (L : List Row) (seen : List Value) (r : Row),
      r ∈ dedupRows key L seen → key r ∉ seen := by
  intro L
  induction L with
  | nil => intro seen r h; exact absurd h (List.not_mem_nil r)
  | cons a t ih =>
    intro seen r h
    unfold dedupRows at h
    split at h
    · exact ih _ r h
    · rcases List.mem_cons.1 h with h | h
      · subst h; assumption
      · intro hmem
        exact ih _ r h (List.mem_cons_of_mem _ hmem)

theorem dedupRows_keys_nodup (key : Row → Value) :
    ∀ (L : List Row) (seen : List Value),
      (List.map key (dedupRows key L seen)).Nodup := by
  intro L
  induction L with
  | nil => intro seen; simp [dedupRows]
  | cons a t ih =>
    intro seen
    unfold dedupRows
    split
    · exact ih _
    · refine List.nodup_cons.2 ⟨?_, ih _⟩
      intro hmem
      rcases List.mem_map.1 hmem with ⟨r, hr, hkr⟩
      exact dedupRows_key_notin key t _ r hr (hkr ▸ List.mem_cons_self _ _)

theorem dedupRows_keys_mem (key : Row → Value) :
    ∀ (L : List Row) (seen : List Value) (v : Value),
      v ∈ List.map key L → v ∉ seen → v ∈ List.map key (dedupRows key L seen) := by
  intro L
  induction L with
  | nil => intro seen v h; exact absurd h (by simp)
  | cons a t ih =>
    intro seen v hv hseen
    unfold dedupRows
    rcases List.mem_map.1 hv with ⟨r, hr, hkr⟩
    subst hkr
    split
    · rename_i hka
      rcases List.mem_cons.1 hr with h | h
      · exact absurd (by rw [h]; exact hka) hseen
      · exact ih _ (key r) (List.mem_map_of_mem key h) hseen
    · rename_i hka
      rcases List.mem_cons.1 hr with h | h
      · subst h; exact List.mem_map_of_mem key (List.mem_cons_self _ _)
      · by_cases hv2 : key r = key a
        · rw [hv2]; exact List.mem_map_of_mem key (List.mem_cons_self _ _)
        · refine List.mem_cons_of_mem _ (ih _ (key r) (List.mem_map_of_mem key h) ?_)
          intro hmem
          rcases List.mem_cons.1 hmem with h2 | h2
          · exact hv2 h2
          · exact hseen h2

/-- A deduplicated row is the first row of the original list carrying its
key. -/
theorem dedupRows_find (key : Row → Value) :
    ∀ (L : List Row) (seen : List Value) (r : Row),
      r ∈ dedupRows key L seen →
      L.find? (fun r2 => key r2 == key r) = some r := by
  intro L
  induction L with
  | nil => intro seen r h; exact absurd h (List.not_mem_nil r)
  | cons a t ih =>
    intro seen r h
    unfold dedupRows at h
    split at h
    · rename_i hka
      have hne : key a ≠ key r := by
        intro he
        exact dedupRows_key_notin key t seen r h (he ▸ hka)
      rw [List.find?_cons_of_neg _ (by simpa using hne)]
      exact ih _ r h
    · rename_i hka
      rcases List.mem_cons.1 h with h2 | h2
      · subst h2
        rw [List.find?_cons_of_pos _ (by simp)]
      · have hnotin := dedupRows_key_notin key t _ r h2
        have hne : key a ≠ key r := by
          intro he
          exact hnotin (he ▸ List.mem_cons_self _ _)
        rw [List.find?_cons_of_neg _ (by simpa using hne)]
        exact ih _ r h2

/-- A totally ordered chain of pairwise-distinct timestamps is strictly
increasing under the pandas `<`. -/
theorem chain_to_strictIncr :
    ∀ l : List Value, List.Chain' (fun a b => vleB a b = true) l →
      l.Nodup → (∀ v ∈ l, isTime v = true) → strictIncrB l = true := by
  intro l
  induction l with
  | nil => intro _ _ _; rfl
  | cons a t ih =>
    intro hch hnd htime
    cases t with
    | nil => rfl
    | cons b t2 =>
      have hab : vleB a b = true := (List.chain'_cons.1 hch).1
      have hane : a ≠ b := by
        intro he
        exact (List.nodup_cons.1 hnd).1 (he ▸ List.mem_cons_self _ _)
      obtain ⟨x, hx⟩ : ∃ x, a = .time x := by
        have := htime a (List.mem_cons_self _ _)
        cases a <;> simp [isTime] at this ⊢
      obtain ⟨y, hy⟩ : ∃ y, b = .time y := by
        have := htime b (List.mem_cons_of_mem _ (List.mem_cons_self _ _))
        cases b <;> simp [isTime] at this ⊢
      subst hx hy
      have hxy : x ≤ y := by simpa [vleB, valQ] using hab
      have hlt : x < y := lt_of_le_of_ne hxy (by simpa using hane)
      have hrest : strictIncrB (Value.time y :: t2) = true :=
        ih (List.chain'_cons.1 hch).2 (List.nodup_cons.1 hnd).2
          (fun v hv => htime v (List.mem_cons_of_mem _ hv))
      unfold strictIncrB
      simp [vltB, hlt, hrest]

theorem setColF_length (df : DF) (c : String) (f : Row → Value) :
    (setColF df c f).rows.length = df.rows.length := by
  unfold setColF
  split <;> simp

theorem list_flatMap_congr {α β : Type _} (l : List α) (f g : α → List β)
    (h : ∀ a ∈ l, f a = g a) : l.flatMap f = l.flatMap g := by
  induction l with
  | nil => rfl
  | cons a t ih =>
    rw [List.flatMap_cons, List.flatMap_cons, h a (List.mem_cons_self a t),
      ih fun x hx => h x (List.mem_cons_of_mem a hx)]

theorem buildDF_length (e : Envelope) (df : DF) (h : buildDF e = some df) :
    df.rows.length = e.data.length := by
  simp only [buildDF] at h
  split at h
  · cases h
    simp [renameCol, setColF_length]
  · split at h
    · cases h
      simp [setColF_length]
    · cases h

theorem projectDF_length (df : DF) : (projectDF df).rows.length = df.rows.length := by
  unfold projectDF selectCols
  split <;> simp

/-- Every page the loop accumulates carries at least one row. -/
theorem fetchPages_rows_ne (get : ℕ → Response) :
    ∀ (fuel s : ℕ) (calls : List ℕ) (dfs : List DF),
      fetchPages get fuel s = .done calls dfs → ∀ df ∈ dfs, df.rows ≠ [] := by
  intro fuel
  induction fuel with
  | zero => intro s calls dfs h; cases h
  | succ f ih =>
    intro s calls dfs h df hdf
    unfold fetchPages at h
    split at h
    · cases h; cases hdf
    · rename_i block _
      split at h
      · cases h; cases hdf
      · rename_i hdata
        split at h
        · cases h
        · rename_i df0 hbuild
          have hlen : df0.rows.length = block.data.length := buildDF_length block df0 hbuild
          have hpos : df0.rows.length ≠ 0 := by
            rw [hlen]
            simpa [List.length_eq_zero] using hdata
          split at h
          · split at h
            · cases h
              rcases List.mem_singleton.1 hdf with rfl
              intro he
              exact hpos (by simpa [projectDF_length] using congrArg List.length he)
            · split at h
              · rename_i cs dfs2 hrec
                cases h
                rcases List.mem_cons.1 hdf with rfl | hmem
                · intro he
                  exact hpos (by simpa [projectDF_length] using congrArg List.length he)
                · exact ih (s + 100) cs dfs2 hrec df hmem
              · cases h
              · cases h
          · cases h; cases hdf

theorem dedupRows_ne (key : Row → Value) (L : List Row) (h : L ≠ []) :
    dedupRows key L [] ≠ [] := by
  cases L with
  | nil => exact absurd rfl h
  | cons a t =>
    unfold dedupRows
    rw [if_neg (List.not_mem_nil (key a))]
    exact List.cons_ne_nil a _

/-- Row identity of the normalized table: dedup then sort of the
concatenation (renaming does not touch rows). -/
theorem normalize_df_rows (dfs : List DF) :
    (normalize dfs).df.rows =
      normRows (tsKeyOf (concatDFs dfs).cols) (concatDFs dfs).rows := rfl

theorem normalize_df_cols (dfs : List DF) :
    (normalize dfs).df.cols =
      (((concatDFs dfs).cols.map fun c => if c = "TRADEDATE" then "TIMESTAMP" else c).map
          fun c => if c = "CLOSE" then "PRICE" else c).map
        fun c => if c = "volume" then "VOLUME" else c := rfl

/-- A normalized series built from at least one nonempty page has at least
one row. -/
theorem normalize_rows_ne (dfs : List DF) (hne : dfs ≠ [])
    (hr : ∀ df ∈ dfs, df.rows ≠ []) : (normalize dfs).df.rows ≠ [] := by
  rw [normalize_df_rows]
  have hc : (concatDFs dfs).rows ≠ [] := by
    cases dfs with
    | nil => exact absurd rfl hne
    | cons d t =>
      have hd : d.rows ≠ [] := hr d (List.mem_cons_self d t)
      simp only [concatDFs, List.flatMap_cons]
      intro he
      rcases List.append_eq_nil.1 he with ⟨h1, _⟩
      exact hd (List.map_eq_nil_iff.1 h1)
  have hdd := dedupRows_ne (tsKeyOf (concatDFs dfs).cols) _ hc
  unfold normRows
  intro he
  exact hdd (List.length_eq_zero.1 (by rw [← sortRows_length (fun a b =>
    vleB (tsKeyOf (concatDFs dfs).cols a) (tsKeyOf (concatDFs dfs).cols b)), he, List.length_nil]))

/-- One run of the page loop: when pages `0..k-1` (at offsets `s + 100*i`)
are full usable pages and page `k` is short, the loop sends exactly the
offsets `s + 100*i` for `i = 0..k` and accumulates exactly those pages'
projected rows. -/
theorem fetchPages_run (get : ℕ → Response) :
    ∀ (k fuel s : ℕ), k + 1 ≤ fuel →
      (∀ i < k, pageRowCount (get (s + 100 * i)) = 100 ∧ pageUsable (get (s + 100 * i))) →
      pageRowCount (get (s + 100 * k)) < 100 →
      pageOk (get (s + 100 * k)) = true →
      ∃ dfs,
        fetchPages get fuel s = .done ((List.range (k + 1)).map fun i => s + 100 * i) dfs ∧
          dfs.flatMap DF.rows = (List.range (k + 1)).flatMap fun i => pagePreview (get (s + 100 * i)) := by
  intro k
  induction k with
  | zero =>
    intro fuel s hfuel hfull hlast hok
    obtain ⟨f, rfl⟩ : ∃ f, fuel = f + 1 := ⟨fuel - 1, by omega⟩
    simp only [Nat.mul_zero, Nat.add_zero] at hlast hok
    have hrange : (List.range 1).map (fun i => s + 100 * i) = [s] := by
      rw [List.range_succ_eq_map]
      simp
    have hprev : ((List.range 1).flatMap fun i => pagePreview (get (s + 100 * i))) =
        pagePreview (get s) := by
      rw [List.range_succ_eq_map]
      simp
    rw [hrange, hprev]
    cases henv : envelopeOf (get s) with
    | none =>
      refine ⟨[], ?_, ?_⟩
      · simp [fetchPages, henv]
      · simp [pagePreview, henv]
    | some block =>
      by_cases hdata : block.data = []
      · refine ⟨[], ?_, ?_⟩
        · simp [fetchPages, henv, hdata]
        · simp [pagePreview, henv, hdata]
      · unfold pageOk at hok
        rw [henv] at hok
        have hok2 : block.data.isEmpty = true ∨ (buildDF block).isSome = true := by
          simpa using hok
        have hsome : (buildDF block).isSome = true := by
          rcases hok2 with h | h
          · exact absurd (List.isEmpty_iff.1 h) hdata
          · exact h
        obtain ⟨df, hdf⟩ := Option.isSome_iff_exists.1 hsome
        by_cases hclose : "CLOSE" ∈ df.cols
        · have hlen : df.rows.length < 100 := by
            rw [buildDF_length block df hdf]
            unfold pageRowCount at hlast
            rwa [henv] at hlast
          refine ⟨[projectDF df], ?_, ?_⟩
          · simp [fetchPages, henv, hdata, hdf, hclose, hlen]
          · simp [pagePreview, henv, hdata, hdf, hclose]
        · refine ⟨[], ?_, ?_⟩
          · simp [fetchPages, henv, hdata, hdf, hclose]
          · simp [pagePreview, henv, hdata, hdf, hclose]
  | succ k ih =>
    intro fuel s hfuel hfull hlast hok
    obtain ⟨f, rfl⟩ : ∃ f, fuel = f + 1 := ⟨fuel - 1, by omega⟩
    obtain ⟨hcount0, e, df, henv, hbuild, hclose⟩ := by
      have h0 := hfull 0 (Nat.succ_pos k)
      simpa only [Nat.mul_zero, Nat.add_zero, pageUsable] using h0
    have hcount : e.data.length = 100 := by
      unfold pageRowCount at hcount0
      rwa [henv] at hcount0
    have hdata : e.data ≠ [] := by
      intro he
      rw [he] at hcount
      simp at hcount
    have hlen : ¬df.rows.length < 100 := by
      rw [buildDF_length e df hbuild, hcount]
      omega
    have harith : ∀ i, s + 100 + 100 * i = s + 100 * (i + 1) := fun i => by ring
    obtain ⟨dfs2, hrec, hflat⟩ := ih f (s + 100) (by omega)
      (fun i hi => by rw [harith]; exact hfull (i + 1) (by omega))
      (by rw [harith]; exact hlast) (by rw [harith]; exact hok)
    have hcalls : ((List.range (k + 1 + 1)).map fun i => s + 100 * i) =
        s :: ((List.range (k + 1)).map fun i => s + 100 + 100 * i) := by
      rw [List.range_succ_eq_map, List.map_cons, List.map_map]
      refine congrArg₂ _ (by norm_num) ?_
      exact List.map_congr_left fun i _ => by
        simp only [Function.comp_apply, Nat.succ_eq_add_one]
        omega
    have hflatEq : ((List.range (k + 1 + 1)).flatMap fun i => pagePreview (get (s + 100 * i))) =
        pagePreview (get s) ++
          ((List.range (k + 1)).flatMap fun i => pagePreview (get (s + 100 + 100 * i))) := by
      rw [List.range_succ_eq_map, List.flatMap_cons, List.flatMap_map]
      refine congrArg₂ _ (by norm_num) ?_
      exact list_flatMap_congr _ _ _ fun i _ => by
        simp only [Function.comp_apply, Nat.succ_eq_add_one]
        rw [harith]
    refine ⟨projectDF df :: dfs2, ?_, ?_⟩
    · rw [hcalls]
      simp [fetchPages, henv, hdata, hbuild, hclose, hlen, hrec]
    · rw [hflatEq, List.flatMap_cons, hflat]
      refine congrArg₂ _ ?_ rfl
      simp [pagePreview, henv, hdata, hbuild, hclose]

theorem concatCols_step_shape :
    ∀ (dfs : List DF) (acc : List String),
      (∀ df ∈ dfs,
        df.cols = ["TRADEDATE", "CLOSE"] ∨ df.cols = ["TRADEDATE", "CLOSE", "VOLUME"]) →
      (acc = ["TRADEDATE", "CLOSE"] ∨ acc = ["TRADEDATE", "CLOSE", "VOLUME"]) →
      (dfs.foldl (fun acc d => acc ++ d.cols.filter (fun c => c ∉ acc)) acc
          = ["TRADEDATE", "CLOSE"] ∨
        dfs.foldl (fun acc d => acc ++ d.cols.filter (fun c => c ∉ acc)) acc
          = ["TRADEDATE", "CLOSE", "VOLUME"]) := by
  intro dfs
  induction dfs with
  | nil => intro acc _ hacc; exact hacc
  | cons d t ih =>
    intro acc h hacc
    rw [List.foldl_cons]
    apply ih _ (fun df hdf => h df (List.mem_cons_of_mem d hdf))
    rcases h d (List.mem_cons_self d t) with hd | hd <;> rcases hacc with ha | ha <;>
      rw [hd, ha] <;> first | (left; decide) | (right; decide)

/-- Under the fetched-page column shapes, the concatenated column list is
either the two- or the three-column shape (or the page list was empty). -/
theorem concatCols_shape (dfs : List DF)
    (h : ∀ df ∈ dfs,
      df.cols = ["TRADEDATE", "CLOSE"] ∨ df.cols = ["TRADEDATE", "CLOSE", "VOLUME"]) :
    dfs = [] ∨ concatCols dfs = ["TRADEDATE", "CLOSE"] ∨
      concatCols dfs = ["TRADEDATE", "CLOSE", "VOLUME"] := by
  cases dfs with
  | nil => exact Or.inl rfl
  | cons d t =>
    right
    unfold concatCols
    rw [List.foldl_cons]
    apply concatCols_step_shape t _ (fun df hdf => h df (List.mem_cons_of_mem d hdf))
    rcases h d (List.mem_cons_self d t) with hd | hd <;> rw [hd]
    · left; decide
    · right; decide

/-- Column-shape bridge: with the timestamp label in leading position both
before and after the renames, the timestamp key of every concatenated row is
its first cell, and the `TIMESTAMP` column of the normalized table is the
key image of its rows. -/
theorem c2_bridge (dfs : List DF) (cs rcs : List String)
    (hc : concatCols dfs = cs)
    (hrcs : (((cs.map fun c => if c = "TRADEDATE" then "TIMESTAMP" else c).map
        fun c => if c = "CLOSE" then "PRICE" else c).map
        fun c => if c = "volume" then "VOLUME" else c) = rcs)
    (hcs0 : colIdx cs "TRADEDATE" = some 0)
    (hrn : colIdx rcs "TIMESTAMP" = some 0)
    (hhead : ∃ rest, cs = "TRADEDATE" :: rest)
    (hts : ∀ df ∈ dfs, ∀ r ∈ df.rows, isTime (cellAt df.cols r "TRADEDATE") = true) :
    (∀ r ∈ (concatDFs dfs).rows, isTime (tsKeyOf (concatDFs dfs).cols r) = true)
  ∧ timestampsOf (normalize dfs) =
      List.map (tsKeyOf (concatDFs dfs).cols) ((normalize dfs).df.rows) := by
  obtain ⟨rest, hcs⟩ := hhead
  have hcols : (concatDFs dfs).cols = concatCols dfs := rfl
  have hcell : ∀ l : Row, cellAt cs l "TRADEDATE" = l.getD 0 .null := by
    intro l
    unfold cellAt
    rw [hcs0]
  have hcell2 : ∀ l : Row, cellAt rcs l "TIMESTAMP" = l.getD 0 .null := by
    intro l
    unfold cellAt
    rw [hrn]
  constructor
  · intro r2 hr2
    have hrows : (concatDFs dfs).rows =
        dfs.flatMap (fun d => d.rows.map fun r => (concatCols dfs).map (cellAt d.cols r)) := rfl
    rw [hrows] at hr2
    rcases List.mem_flatMap.1 hr2 with ⟨d, hd, hm⟩
    rcases List.mem_map.1 hm with ⟨r, hr, rfl⟩
    unfold tsKeyOf
    rw [hcols, hc, hcell, hcs]
    simp only [List.map_cons, List.getD_cons_zero]
    exact hts d hd r hr
  · unfold timestampsOf
    apply List.map_congr_left
    intro r _
    have hdfc : (normalize dfs).df.cols = rcs := by
      rw [normalize_df_cols, hcols, hc, hrcs]
    rw [hdfc, hcell2]
    unfold tsKeyOf
    rw [hcols, hc, hcell]

/-- Core of the normalizer invariant, over an arbitrary timestamp key:
distinct keys, key-set preservation, first-occurrence rows, and (given all
keys are non-null timestamps) strict ascent. -/
theorem c2_core (dfs : List DF)
    (hts2 : ∀ r ∈ (concatDFs dfs).rows, isTime (tsKeyOf (concatDFs dfs).cols r) = true)
    (hTS : timestampsOf (normalize dfs) =
      List.map (tsKeyOf (concatDFs dfs).cols) ((normalize dfs).df.rows)) :
    (timestampsOf (normalize dfs)).Nodup
  ∧ (∀ v : Value, v ∈ timestampsOf (normalize dfs) ↔
      v ∈ (concatDFs dfs).rows.map (tsKeyOf (concatDFs dfs).cols))
  ∧ (∀ r ∈ (normalize dfs).df.rows,
      (concatDFs dfs).rows.find? (fun r2 =>
        tsKeyOf (concatDFs dfs).cols r2 == tsKeyOf (concatDFs dfs).cols r) = some r)
  ∧ strictIncrB (timestampsOf (normalize dfs)) = true := by
  have hrows : (normalize dfs).df.rows =
      sortRows
        (fun a b => vleB (tsKeyOf (concatDFs dfs).cols a) (tsKeyOf (concatDFs dfs).cols b))
        (dedupRows (tsKeyOf (concatDFs dfs).cols) (concatDFs dfs).rows []) := by
    rw [normalize_df_rows]
    rfl
  have hperm :=
    sortRows_perm
      (fun a b => vleB (tsKeyOf (concatDFs dfs).cols a) (tsKeyOf (concatDFs dfs).cols b))
      (dedupRows (tsKeyOf (concatDFs dfs).cols) (concatDFs dfs).rows [])
  have hkeysperm :
      (List.map (tsKeyOf (concatDFs dfs).cols) ((normalize dfs).df.rows)).Perm
        (List.map (tsKeyOf (concatDFs dfs).cols)
          (dedupRows (tsKeyOf (concatDFs dfs).cols) (concatDFs dfs).rows [])) := by
    rw [hrows]
    exact hperm.map _
  have hnodup : (List.map (tsKeyOf (concatDFs dfs).cols) ((normalize dfs).df.rows)).Nodup :=
    hkeysperm.nodup_iff.2 (dedupRows_keys_nodup _ _ _)
  have hmem : ∀ v, v ∈ List.map (tsKeyOf (concatDFs dfs).cols) ((normalize dfs).df.rows) ↔
      v ∈ List.map (tsKeyOf (concatDFs dfs).cols) (concatDFs dfs).rows := by
    intro v
    rw [hkeysperm.mem_iff]
    constructor
    · intro hv
      rcases List.mem_map.1 hv with ⟨r, hr, rfl⟩
      exact List.mem_map_of_mem _ (dedupRows_subset _ _ _ r hr)
    · intro hv
      exact dedupRows_keys_mem _ _ _ v hv (List.not_mem_nil v)
  refine ⟨by rw [hTS]; exact hnodup, fun v => by rw [hTS]; exact hmem v, ?_, ?_⟩
  · intro r hr
    apply dedupRows_find
    rw [hrows] at hr
    exact hperm.mem_iff.1 hr
  · rw [hTS]
    apply chain_to_strictIncr
    · rw [hrows]
      exact (List.chain'_map _).2
        (sortRows_chain _ (fun a b => vleB_total _ _) _)
    · exact hnodup
    · intro v hv
      rcases List.mem_map.1 ((hmem v).1 hv) with ⟨r, hr, rfl⟩
      exact hts2 r hr

/-! ## Claim theorems -/

/-- Claim C3: the resolver is deterministic per granularity.  Daily requests
go to the historical-quotes endpoint keyed by engine/market/board/identifier
with only the date range in the base parameters; each intraday granularity
goes to the candles endpoint keyed by engine/market/identifier with the date
range plus the interval code hourly→60, 10-minute→10, 1-minute→1. -/
theorem claim_c3_resolver :
    (∀ e m b t s f : String,
      resolveEndpoint e m b t s f "1d" =
        (s!"history/engines/{e}/markets/{m}/boards/{b}/securities/{t}.json",
          [("from", .str s), ("till", .str f)]))
  ∧ (∀ e m b t s f : String,
      resolveEndpoint e m b t s f "1h" =
        (s!"engines/{e}/markets/{m}/securities/{t}/candles.json",
          [("from", .str s), ("till", .str f), ("interval", .nat 60)]))
  ∧ (∀ e m b t s f : String,
      resolveEndpoint e m b t s f "10m" =
        (s!"engines/{e}/markets/{m}/securities/{t}/candles.json",
          [("from", .str s), ("till", .str f), ("interval", .nat 10)]))
  ∧ (∀ e m b t s f : String,
      resolveEndpoint e m b t s f "1m" =
        (s!"engines/{e}/markets/{m}/securities/{t}/candles.json",
          [("from", .str s), ("till", .str f), ("interval", .nat 1)])) := by
  refine ⟨fun e m b t s f => ?_, fun e m b t s f => ?_,
    fun e m b t s f => ?_, fun e m b t s f => ?_⟩ <;>
    simp [resolveEndpoint, intervalsAssoc, List.lookup]

/-- Claim C4: a granularity outside the four recognized values makes
`get_history` fail with the invalid-interval error before the loop starts:
the transport is never called (empty call list). -/
theorem claim_c4_invalid_granularity (get : ℕ → Response) (fuel : ℕ) (interval : String)
    (h : interval ∉ ["1m", "10m", "1h", "1d"]) :
    getHistory get fuel interval = (.error .invalidInterval, []) := by
  have hl : intervalsAssoc.lookup interval = none := by
    simp only [List.mem_cons, List.not_mem_nil, or_false, not_or] at h
    obtain ⟨h1, h2, h3, h4⟩ := h
    simp [intervalsAssoc, List.lookup, beq_eq_false_iff_ne.2 h1, beq_eq_false_iff_ne.2 h2,
      beq_eq_false_iff_ne.2 h3, beq_eq_false_iff_ne.2 h4]
  unfold getHistory
  rw [hl]
  rfl

/-- Witness for C4 at the concrete granularity "5m". -/
theorem claim_c4_witness :
    "5m" ∉ ["1m", "10m", "1h", "1d"] ∧
      getHistory (fun _ => emptyResp) 3 "5m" = (.error .invalidInterval, []) :=
  ⟨by decide, claim_c4_invalid_granularity (fun _ => emptyResp) 3 "5m" (by decide)⟩

/-- Claim C1: if the transport returns full pages (100 rows) at offsets
`100*i` for `i < k` and a short page at offset `100*k`, the loop sends
exactly the k+1 offsets `0, 100, ..., 100*k` and accumulates exactly the
projected rows of those k+1 pages, in order. -/
theorem claim_c1_pagination (get : ℕ → Response) (k fuel : ℕ) (hfuel : k + 1 ≤ fuel)
    (hfull : ∀ i < k, pageRowCount (get (100 * i)) = 100 ∧ pageUsable (get (100 * i)))
    (hlast : pageRowCount (get (100 * k)) < 100)
    (hok : pageOk (get (100 * k)) = true) :
    ∃ dfs,
      fetchPages get fuel 0 = .done ((List.range (k + 1)).map fun i => 100 * i) dfs ∧
        dfs.flatMap DF.rows = (List.range (k + 1)).flatMap fun i => pagePreview (get (100 * i)) := by
  have h := fetchPages_run get k fuel 0 hfuel
    (by simpa using hfull) (by simpa using hlast) (by simpa using hok)
  simpa using h

/-- Witness for C1 with k = 0: a single short usable page. -/
theorem claim_c1_witness :
    (0 + 1 ≤ 1) ∧ pageRowCount ((fun _ => c1Resp) (100 * 0)) < 100 ∧
      ∃ dfs,
        fetchPages (fun _ => c1Resp) 1 0 = .done ((List.range (0 + 1)).map fun i => 100 * i) dfs ∧
          dfs.flatMap DF.rows =
            (List.range (0 + 1)).flatMap fun i => pagePreview ((fun _ => c1Resp) (100 * i)) :=
  ⟨by decide, by decide,
    claim_c1_pagination (fun _ => c1Resp) 0 1 (by decide)
      (fun i hi => absurd hi (Nat.not_lt_zero i)) (by decide) (by decide)⟩

/-- Claim C5: when every response carries no usable data (absent envelope or
zero rows), `get_history` fails with the no-data error instead of returning
an empty series; and a successful result never carries zero rows. -/
theorem claim_c5_empty_result :
    (∀ (get : ℕ → Response) (fuel : ℕ) (interval : String),
      1 ≤ fuel → (intervalsAssoc.lookup interval).isSome →
      (∀ n, pageRowCount (get n) = 0) →
      (getHistory get fuel interval).1 = .error .noData)
  ∧ ∀ (get : ℕ → Response) (fuel : ℕ) (interval : String) (r : HistResult) (cs : List ℕ),
      getHistory get fuel interval = (.ok r, cs) → r.df.rows ≠ [] := by
  constructor
  · intro get fuel interval hf hi h
    obtain ⟨f, rfl⟩ : ∃ f, fuel = f + 1 := ⟨fuel - 1, by omega⟩
    have hdfs : fetchPages get (f + 1) 0 = .done [0] [] := by
      cases henv : envelopeOf (get 0) with
      | none => simp [fetchPages, henv]
      | some e =>
        have hdata : e.data = [] := by
          have h0 := h 0
          unfold pageRowCount at h0
          rw [henv] at h0
          simpa [List.length_eq_zero] using h0
        simp [fetchPages, henv, hdata]
    obtain ⟨v, hv⟩ := Option.isSome_iff_exists.1 hi
    simp [getHistory, hv, hdfs]
  · intro get fuel interval r cs h
    unfold getHistory at h
    by_cases hiv : (intervalsAssoc.lookup interval).isNone = true
    · rw [if_pos hiv] at h
      exact absurd h (by simp)
    · rw [if_neg hiv] at h
      cases hfp : fetchPages get fuel 0 with
      | done calls dfs =>
        rw [hfp] at h
        by_cases hdfs : dfs = []
        · exact absurd h (by simp [hdfs])
        · have hr : normalize dfs = r := by
            have h1 := congrArg Prod.fst h
            simpa [hdfs] using h1
          rw [← hr]
          exact normalize_rows_ne dfs hdfs (fetchPages_rows_ne get fuel 0 calls dfs hfp)
      | keyErr calls =>
        rw [hfp] at h
        exact absurd h (by simp)
      | fuelOut calls =>
        rw [hfp] at h
        exact absurd h (by simp)

/-- Witness for C5: a transport that never returns data. -/
theorem claim_c5_witness :
    (getHistory (fun _ => emptyResp) 1 "1d").1 = .error .noData :=
  claim_c5_empty_result.1 (fun _ => emptyResp) 1 "1d" (by decide) (by decide) (fun n => rfl)

/-- Claim C7 (confirmed): the first record's return fields are always
undefined (NaN), and on prices 100, 110, 99 the derived columns are
log-return `[NaN, ln(11/10), ln(9/10)]` (`logOf q` denotes `ln q`),
simple-return `[NaN, 1/10, -1/10]`, cumulative-return `[NaN, 11/10, 99/100]`
(the implementation leaves index 0 undefined, the consistent choice the spec
allows). -/
theorem claim_c7_return_derivation :
    (∀ (p : EFloat) (ps : List EFloat),
      (computeLogret (p :: ps))[0]? = some .undefined ∧ (computeRet (p :: ps))[0]? = some .nan)
  ∧ (normalize [threePricePage]).logret = [.undefined, .logOf (11 / 10), .logOf (9 / 10)]
  ∧ (normalize [threePricePage]).ret = [.nan, .fin (1 / 10), .fin (-(1 / 10))]
  ∧ (normalize [threePricePage]).cumret = [.nan, .fin (11 / 10), .fin (99 / 100)] := by
  have hmap : (normalize [threePricePage]).df.rows.map
      (fun r => toF (cellAt (normalize [threePricePage]).df.cols r "PRICE")) =
      [.fin 100, .fin 110, .fin 99] := by decide
  refine ⟨fun p ps => ⟨?_, ?_⟩, ?_, ?_, ?_⟩
  · simp only [computeLogret, List.zipWith_cons_cons, List.getElem?_cons_zero]
    simp [efDiv_nan_right, efLog]
  · simp only [computeRet, List.zipWith_cons_cons, List.getElem?_cons_zero]
    simp [efDiv_nan_right, efSub, efAdd]
  · calc (normalize [threePricePage]).logret
        = computeLogret [.fin 100, .fin 110, .fin 99] := by
          show computeLogret _ = _
          exact congrArg computeLogret hmap
      _ = [.undefined, .logOf (11 / 10), .logOf (9 / 10)] := by
          norm_num [computeLogret, efDiv, efLog, efDiv_nan_right]
  · calc (normalize [threePricePage]).ret
        = computeRet [.fin 100, .fin 110, .fin 99] := by
          show computeRet _ = _
          exact congrArg computeRet hmap
      _ = [.nan, .fin (1 / 10), .fin (-(1 / 10))] := by
          norm_num [computeRet, efDiv, efSub, efAdd, efNeg]
  · calc (normalize [threePricePage]).cumret
        = computeCumret [.fin 100, .fin 110, .fin 99] := by
          show computeCumret _ = _
          exact congrArg computeCumret hmap
      _ = [.nan, .fin (11 / 10), .fin (99 / 100)] := by
          norm_num [computeCumret, computeRet, cumprodSkipNa, efDiv, efSub, efAdd, efNeg, efMul]

/-- Counterexample to C6 as stated: on prices `[0, 50]` the code yields
`+inf` (IEEE division by zero followed by `np.log(inf)`), a definite
non-null float, not a NaN/null marker, at index 1. -/
theorem claim_c6_counterexample :
    (normalize [zeroPricePage]).ret = [.nan, .inf]
  ∧ (normalize [zeroPricePage]).logret = [.undefined, .pInf]
  ∧ EFloat.inf ≠ EFloat.nan ∧ LogVal.pInf ≠ LogVal.undefined := by decide

/-- Claim C6 as amended: no failure is ever thrown (the functions are
total); a NaN previous price propagates NaN/undefined to both returns at the
next index; a zero previous price with a positive current price yields
`+infinity` — not a null marker — in both returns at the next index. -/
theorem claim_c6_amended (ps : List EFloat) (i : ℕ) :
    (∀ a : EFloat, ps[i]? = some .nan → ps[i + 1]? = some a →
      (computeRet ps)[i + 1]? = some .nan ∧ (computeLogret ps)[i + 1]? = some .undefined)
  ∧ (∀ q : ℚ, ps[i]? = some (.fin 0) → ps[i + 1]? = some (.fin q) → 0 < q →
      (computeRet ps)[i + 1]? = some .inf ∧ (computeLogret ps)[i + 1]? = some .pInf) := by
  constructor
  · intro a h0 h1
    rw [computeRet_succ ps i a .nan h1 h0, computeLogret_succ ps i a .nan h1 h0,
      efDiv_nan_right]
    exact ⟨rfl, rfl⟩
  · intro q h0 h1 hq
    have hdiv : efDiv (.fin q) (.fin 0) = .inf := by
      simp [efDiv, hq]
    rw [computeRet_succ ps i (.fin q) (.fin 0) h1 h0,
      computeLogret_succ ps i (.fin q) (.fin 0) h1 h0, hdiv]
    exact ⟨rfl, rfl⟩

/-- Witness for C6 (amended) on both hypotheses: previous price NaN, and
previous price zero before the concrete pair `[0, 50]`. -/
theorem claim_c6_witness :
    ((computeRet [.nan, .fin 2])[0 + 1]? = some .nan ∧
      (computeLogret [.nan, .fin 2])[0 + 1]? = some .undefined)
  ∧ ((computeRet [.fin 0, .fin 50])[0 + 1]? = some .inf ∧
      (computeLogret [.fin 0, .fin 50])[0 + 1]? = some .pInf) :=
  ⟨(claim_c6_amended [.nan, .fin 2] 0).1 (.fin 2) (by decide) (by decide),
    (claim_c6_amended [.fin 0, .fin 50] 0).2 50 (by decide) (by decide) (by decide)⟩

/-- Counterexample to C8 as stated: a response exposing `LAST = 6` and
`CLOSEPRICE = 7` (both non-null) whose returned price is `5` — the
`LCURRENTPRICE` value, which precedes `LAST` in the priority order. -/
theorem claim_c8_counterexample :
    getData c8BadResp 0 = .ok ⟨5, 10, .time 0⟩
  ∧ cellAt (mdCols c8BadResp) ((mdData c8BadResp).headD []) "LAST" = .num 6
  ∧ cellAt (mdCols c8BadResp) ((mdData c8BadResp).headD []) "CLOSEPRICE" = .num 7
  ∧ (5 : ℚ) ≠ 6 := by decide

/-- Claim C8 as amended: the snapshot price is the first present, non-null
candidate in priority order; in particular, whenever `LCURRENTPRICE` is
absent or null and `LAST` is present and non-null, any successful snapshot
returns the `LAST` value — regardless of `MARKETPRICE`, `LASTPRICE`,
`CLOSEPRICE`. -/
theorem claim_c8_amended (j : Response) (now : ℚ) (q : ℚ) (s : Snapshot)
    (hl : ¬("LCURRENTPRICE" ∈ mdCols j ∧
      cellAt (mdCols j) ((mdData j).headD []) "LCURRENTPRICE" ≠ .null))
    (hm : "LAST" ∈ mdCols j)
    (hc : cellAt (mdCols j) ((mdData j).headD []) "LAST" = .num q)
    (hok : getData j now = .ok s) : s.price = q := by
  have hpick : pickPrice (mdCols j) ((mdData j).headD []) = some q := by
    unfold pickPrice snapFields
    rw [List.findSome?_cons, if_neg hl, List.findSome?_cons,
      if_pos ⟨hm, by rw [hc]; exact fun h => Value.noConfusion h⟩, hc]
    rfl
  simp only [getData] at hok
  by_cases hmd : mdData j = []
  · rw [if_pos hmd] at hok
    exact absurd hok (by simp)
  · rw [if_neg hmd] at hok
    split at hok
    · exact absurd hok (by simp)
    · rename_i p hp2
      rw [hpick] at hp2
      obtain rfl : p = q := (Option.some.inj hp2).symm
      split at hok
      · exact absurd hok (by simp)
      · split at hok
        · rw [← Except.ok.inj hok]
        · exact absurd hok (by simp)

/-- Witness for C8 (amended): `LAST = 6` beats `MARKETPRICE = 3` and
`CLOSEPRICE = 7`. -/
theorem claim_c8_witness :
    getData c8GoodResp 0 = .ok ⟨6, 10, .time 0⟩ ∧ Snapshot.price ⟨6, 10, .time 0⟩ = 6 :=
  ⟨by decide,
    claim_c8_amended c8GoodResp 0 6 ⟨6, 10, .time 0⟩ (by decide) (by decide) (by decide)
      (by decide)⟩

/-- Counterexample to C9 as stated: the snapshot fails with the invalid-price
error even though a positive, finite price (`LAST = 6`) exists among the
candidate fields and a volume field is present — the code validates only the
first non-null candidate (`LCURRENTPRICE = -5`). -/
theorem claim_c9_counterexample :
    getData c9BadResp 0 = .error .invalidPrice
  ∧ cellAt (mdCols c9BadResp) ((mdData c9BadResp).headD []) "LAST" = .num 6
  ∧ (0 : ℚ) < 6
  ∧ "VOLUME" ∈ mdCols c9BadResp
  ∧ cellAt (mdCols c9BadResp) ((mdData c9BadResp).headD []) "VOLUME" = .num 10 := by decide

/-- Claim C9 as amended: given any marketdata rows at all, the snapshot
fails with an invalid-price or invalid-volume error exactly when the first
present non-null candidate price is missing or not positive, or the volume
field is absent, null, or not positive; equivalently, on success neither
condition held. -/
theorem claim_c9_amended (j : Response) (now : ℚ) (hmd : mdData j ≠ []) :
    (getData j now = .error .invalidPrice ∨ getData j now = .error .invalidVolume) ↔
      (badPickedPrice j ∨ badVolume j) := by
  cases hp : pickPrice (mdCols j) ((mdData j).headD []) with
  | none =>
    have hval : getData j now = .error .invalidPrice := by
      simp only [getData]
      rw [if_neg hmd, hp]
    rw [hval]
    constructor
    · intro _
      left
      unfold badPickedPrice
      rw [hp]
      trivial
    · intro _
      left
      rfl
  | some p =>
    have hval : getData j now =
        (if p ≤ 0 then Except.error Err.invalidPrice
         else if "VOLUME" ∈ mdCols j ∧
             cellAt (mdCols j) ((mdData j).headD []) "VOLUME" ≠ Value.null ∧
             0 < asNum (cellAt (mdCols j) ((mdData j).headD []) "VOLUME") then
           Except.ok ⟨p, asNum (cellAt (mdCols j) ((mdData j).headD []) "VOLUME"),
             if "SYSTIME" ∈ mdCols j ∧
                 cellAt (mdCols j) ((mdData j).headD []) "SYSTIME" ≠ Value.null then
               toDatetime (cellAt (mdCols j) ((mdData j).headD []) "SYSTIME")
             else Value.time now⟩
         else Except.error Err.invalidVolume) := by
      simp only [getData]
      rw [if_neg hmd, hp]
    rw [hval]
    by_cases hq : p ≤ 0
    · rw [if_pos hq]
      constructor
      · intro _
        left
        unfold badPickedPrice
        rw [hp]
        exact hq
      · intro _
        left
        rfl
    · rw [if_neg hq]
      by_cases hv : "VOLUME" ∈ mdCols j ∧
          cellAt (mdCols j) ((mdData j).headD []) "VOLUME" ≠ .null ∧
          0 < asNum (cellAt (mdCols j) ((mdData j).headD []) "VOLUME")
      · rw [if_pos hv]
        constructor
        · intro h
          rcases h with h | h <;> exact Except.noConfusion h
        · intro h
          rcases h with h | h
          · unfold badPickedPrice at h
            rw [hp] at h
            exact absurd h hq
          · exact absurd hv h
      · rw [if_neg hv]
        constructor
        · intro _
          right
          exact hv
        · intro _
          right
          rfl

/-- Witness for C9 (amended): a positive price but no volume column. -/
theorem claim_c9_witness :
    getData c9NoVolResp 0 = .error .invalidPrice ∨
      getData c9NoVolResp 0 = .error .invalidVolume :=
  (claim_c9_amended c9NoVolResp 0 (by decide)).mpr (Or.inr (by decide))

/-- Claim C10: `get_securities_list` always succeeds; with an absent or
empty securities envelope it returns an empty table, while on no data
`get_history` raises the empty-result error and `get_data` raises the
no-marketdata error. -/
theorem claim_c10_list_securities :
    (∀ j : Response, getSecuritiesList j = .ok ⟨secCols j, secData j⟩)
  ∧ (∀ j : Response, secData j = [] → getSecuritiesList j = .ok ⟨secCols j, []⟩)
  ∧ (getHistory (fun _ => emptyResp) 1 "1d").1 = .error .noData
  ∧ getData emptyResp 0 = .error .noMarketdata := by
  refine ⟨fun j => rfl, fun j h => ?_, by decide, by decide⟩
  rw [getSecuritiesList, h]

/-- Witness for C10 at the empty response. -/
theorem claim_c10_witness :
    getSecuritiesList emptyResp = .ok ⟨secCols emptyResp, []⟩ :=
  claim_c10_list_securities.2.1 emptyResp rfl

/-- Counterexample to C2 as stated: a fetched page with a null trade date
produces a normalized series whose timestamps are `[time 5, NaT]` — the
adjacent pair is not strictly increasing, because pandas places NaT last and
`NaT < x` is false. -/
theorem claim_c2_counterexample :
    ((getHistory (fun _ => nullTsResp) 1 "1d").1).isOk = true
  ∧ histTimestamps ((getHistory (fun _ => nullTsResp) 1 "1d").1) = [.time 5, .null]
  ∧ strictIncrB [.time 5, .null] = false := by decide

/-- Claim C2 as amended: over fetched-shaped pages, the normalized output
has pairwise-distinct timestamps, exactly the timestamps occurring in the
page concatenation, each kept record equal to the first row carrying its
timestamp in page-concatenation order; and, provided every row's timestamp
is a non-null instant, the output's timestamps are strictly increasing
(a null timestamp sorts last and breaks strict ascent, as the
counterexample shows). -/
theorem claim_c2_dedup_order (dfs : List DF)
    (hshape : ∀ df ∈ dfs,
      df.cols = ["TRADEDATE", "CLOSE"] ∨ df.cols = ["TRADEDATE", "CLOSE", "VOLUME"])
    (hts : ∀ df ∈ dfs, ∀ r ∈ df.rows, isTime (cellAt df.cols r "TRADEDATE") = true) :
    (timestampsOf (normalize dfs)).Nodup
  ∧ (∀ v : Value, v ∈ timestampsOf (normalize dfs) ↔
      v ∈ (concatDFs dfs).rows.map (tsKeyOf (concatDFs dfs).cols))
  ∧ (∀ r ∈ (normalize dfs).df.rows,
      (concatDFs dfs).rows.find? (fun r2 =>
        tsKeyOf (concatDFs dfs).cols r2 == tsKeyOf (concatDFs dfs).cols r) = some r)
  ∧ strictIncrB (timestampsOf (normalize dfs)) = true := by
  rcases concatCols_shape dfs hshape with hnil | hc | hc
  · subst hnil
    have h1 : timestampsOf (normalize ([] : List DF)) = [] := by decide
    have h2 : (concatDFs ([] : List DF)).rows = [] := rfl
    have h3 : (normalize ([] : List DF)).df.rows = [] := by decide
    refine ⟨by rw [h1]; exact List.nodup_nil, fun v => by rw [h1, h2]; simp,
      fun r hr => absurd (h3 ▸ hr) (List.not_mem_nil r), by rw [h1]; rfl⟩
  · obtain ⟨hts2, hTS⟩ := c2_bridge dfs ["TRADEDATE", "CLOSE"] ["TIMESTAMP", "PRICE"] hc
      (by decide) (by decide) (by decide) ⟨["CLOSE"], rfl⟩ hts
    exact c2_core dfs hts2 hTS
  · obtain ⟨hts2, hTS⟩ := c2_bridge dfs ["TRADEDATE", "CLOSE", "VOLUME"]
      ["TIMESTAMP", "PRICE", "VOLUME"] hc (by decide) (by decide) (by decide)
      ⟨["CLOSE", "VOLUME"], rfl⟩ hts
    exact c2_core dfs hts2 hTS

/-- Witness for C2 (amended) on a page with an internal duplicate
timestamp. -/
theorem claim_c2_witness :
    (timestampsOf (normalize [dupPage])).Nodup
  ∧ (∀ v : Value, v ∈ timestampsOf (normalize [dupPage]) ↔
      v ∈ (concatDFs [dupPage]).rows.map (tsKeyOf (concatDFs [dupPage]).cols))
  ∧ (∀ r ∈ (normalize [dupPage]).df.rows,
      (concatDFs [dupPage]).rows.find? (fun r2 =>
        tsKeyOf (concatDFs [dupPage]).cols r2 == tsKeyOf (concatDFs [dupPage]).cols r) = some r)
  ∧ strictIncrB (timestampsOf (normalize [dupPage])) = true :=
  claim_c2_dedup_order [dupPage] (by decide) (by decide)

end Moex
